import Mathlib

/-!
Verification model of the scmire Rust core (classification parser and
paired-FASTQ filter pipeline).  Bytes are modelled as natural numbers
(ASCII codes); byte strings as `List Nat`.  Machine `usize` arithmetic
appears only as truncated `Nat` subtraction (capacity bookkeeping), which
matches Rust because `Vec` guarantees `len <= capacity`.
-/

set_option autoImplicit false

namespace Scmire

/-- `memchr::memchr(c, hay)` (crate `memchr`): index of the first occurrence
of byte `c` in `hay`, as used for tab scanning in `koutput.rs`. -/
def memchr (c : Nat) : List Nat → Option Nat
  | [] => none
  | b :: rest => if b = c then some 0 else (memchr c rest).map (fun i => i + 1)

/-- `memchr::memmem::Finder::find`: index of the first occurrence of the byte
pattern `pat` as a contiguous substring of the haystack. -/
def findSub (pat : List Nat) : List Nat → Option Nat
  | [] => if pat = [] then some 0 else none
  | b :: rest =>
    if pat.isPrefixOf (b :: rest) then some 0 else (findSub pat rest).map (fun i => i + 1)

/-- `AhoCorasick::find(haystack).is_some()`: true iff some pattern of the
multi-pattern matcher occurs as a contiguous substring of the haystack. -/
def acFindAny (patterns : List (List Nat)) (hay : List Nat) : Bool :=
  patterns.any (fun p => (findSub p hay).isSome)

/-- The exclusion test of `parse_koutput` (`koutput.rs` lines 107-111): an
absent matcher never matches; a present matcher matches via `find`. -/
def excludeMatches : Option (List (List Nat)) → List Nat → Bool
  | none, _ => false
  | some pats, lca => acFindAny pats lca

/-- `KOUTPUT_TAXID_PREFIX` from `utils.rs`: the bytes of `(taxid `. -/
def taxidTag : List Nat := [40, 116, 97, 120, 105, 100, 32]

/-- `KOUTPUT_TAXID_SUFFIX` from `utils.rs`: the byte `)`. -/
def taxidClose : Nat := 41

/-- The field-2 (taxid) admission logic of `parse_koutput` (`koutput.rs`
lines 74-98): when the `(taxid ` marker occurs in the field, the admitted
taxid is the slice from after the marker up to the next `)` (a marker with
no closing `)` skips the line); otherwise the whole field is the candidate.
The candidate is admitted iff it belongs to `include_sets`. -/
def taxidOf (include_sets : List (List Nat)) (field : List Nat) : Option (List Nat) :=
  match findSub taxidTag field with
  | some s =>
    match memchr taxidClose (field.drop (s + taxidTag.length)) with
    | some e =>
      if (field.drop (s + taxidTag.length)).take e ∈ include_sets then
        some ((field.drop (s + taxidTag.length)).take e)
      else none
    | none => none
  | none => if field ∈ include_sets then some field else none

/-- Per-line tokenize-and-filter step of the `parse_koutput` parser loop
(`koutput.rs` lines 57-133), with the `while let Some(tab_pos) = memchr(..)`
loop unrolled over `field_index = 0, 1, 2, 3` (the loop body ends the line at
`field_index == 3`, so no further iterations exist).  Every `continue
'chunk_loop` of the source is a `none` here; the emitted
`(sequence_id, (length, taxid, lca))` tuple is the `some` payload. -/
def parseKoutputLine (include_sets : List (List Nat)) (exclude_aho : Option (List (List Nat)))
    (line : List Nat) : Option (List Nat × (List Nat × List Nat × List Nat)) :=
  match memchr 9 line with
  | none => none
  | some t0 =>
    -- field_index == 0: skip unless the field is exactly the single byte C
    if (line.take t0).length ≠ 1 ∨ (line.take t0).head? ≠ some 67 then none
    else
      match memchr 9 (line.drop (t0 + 1)) with
      | none => none
      | some t1 =>
        -- field_index == 1: sequence_id
        let sequence_id := (line.drop (t0 + 1)).take t1
        let rest2 := (line.drop (t0 + 1)).drop (t1 + 1)
        match memchr 9 rest2 with
        | none => none
        | some t2 =>
          -- field_index == 2: taxid admission
          match taxidOf include_sets (rest2.take t2) with
          | none => none
          | some taxid =>
            let rest3 := rest2.drop (t2 + 1)
            match memchr 9 rest3 with
            | none => none
            | some t3 =>
              -- field_index == 3: field is the sequence-length slice; the
              -- cursor then advances past the tab and the LCA runs to the
              -- next tab if any, otherwise to end of line
              let length_field := rest3.take t3
              let rest4 := rest3.drop (t3 + 1)
              let lca := match memchr 9 rest4 with
                | some p => rest4.take p
                | none => rest4
              if excludeMatches exclude_aho lca then none
              else some (sequence_id, (length_field, taxid, lca))

/-- One `HashMap` insertion: replace the value of an existing key in place,
otherwise append the new binding.  This is the effect of
`HashMap::from_iter` folding its stream (`koutput.rs` lines 174-177):
each key keeps the value of the last tuple inserted for it. -/
def insertEntry {K V : Type} [DecidableEq K] : List (K × V) → K → V → List (K × V)
  | [], k, v => [(k, v)]
  | p :: rest, k, v => if p.1 = k then (k, v) :: rest else p :: insertEntry rest k v

/-- `collect::<HashMap<..>>` over a tuple stream, as an insertion fold. -/
def buildMap {K V : Type} [DecidableEq K] (l : List (K × V)) : List (K × V) :=
  l.foldl (fun m p => insertEntry m p.1 p.2) []

/-- Map lookup on the association-list model of the selection map. -/
def lookupEntry {K V : Type} [DecidableEq K] (m : List (K × V)) (k : K) : Option V :=
  (m.find? (fun p => decide (p.1 = k))).map Prod.snd

/-- The value of the last tuple carrying key `k` in an emission stream. -/
def lastValue {K V : Type} [DecidableEq K] (l : List (K × V)) (k : K) : Option V :=
  (l.reverse.find? (fun p => decide (p.1 = k))).map Prod.snd

/-- `parse_koutput` (`koutput.rs` lines 16-179) with the emission stream
serialized in input order (the `threads = 1` schedule): each line of the
classification report is tokenized and filtered by `parseKoutputLine`, and
the main thread drains the emitted tuples into the selection map, where
collection into a `HashMap` keeps the last value of each duplicated key. -/
def parse_koutput (include_sets : List (List Nat)) (exclude_aho : Option (List (List Nat)))
    (lines : List (List Nat)) : List (List Nat × (List Nat × List Nat × List Nat)) :=
  buildMap (lines.filterMap (parseKoutputLine include_sets exclude_aho))

/-- Spec-side field decomposition (spec section 4.1: tab-delimited fields):
the maximal tab-free segments of a line, in order. -/
def splitTab : List Nat → List (List Nat)
  | [] => [[]]
  | b :: rest =>
    if b = 9 then [] :: splitTab rest
    else
      match splitTab rest with
      | [] => [[b]]
      | f :: fs => (b :: f) :: fs

/-- Spec-side taxid extraction, following the claim wording: the
parenthesized taxid substring when the `(taxid ` marker is present (none if
the closing `)` is missing), otherwise the whole field. -/
def taxidEx (field : List Nat) : Option (List Nat) :=
  match findSub taxidTag field with
  | some s => (memchr taxidClose (field.drop (s + taxidTag.length))).map
      (fun e => (field.drop (s + taxidTag.length)).take e)
  | none => some field

/-- Spec-side taxid of a whole classification line: extraction applied to
the third tab-delimited field. -/
def lineTaxid (line : List Nat) : Option (List Nat) :=
  ((splitTab line)[2]?).bind taxidEx

/-! ## Pipeline F: paired-FASTQ filter worker and collator (`paired.rs`) -/

/-- Modelled from the spec: `fastq_record.rs` is not under `src/`.  A FASTQ
record per spec sections 4.3 and 8 (glossary): read identifier, sequence
and quality byte strings. -/
structure FastqRecord where
  id : List Nat
  seq : List Nat
  qual : List Nat
deriving DecidableEq

/-- Modelled from the spec: the canonical framing the filter worker appends
per record (spec section 4.5 step 4): at-sign, id, LF, sequence, LF, plus,
LF, quality, LF. -/
def FastqRecord.bytes (r : FastqRecord) : List Nat :=
  [64] ++ r.id ++ [10] ++ r.seq ++ [10, 43, 10] ++ r.qual ++ [10]

/-- Modelled from the spec: `record.bytes_size()` as used by the capacity
check in `paired.rs` lines 140-141 — the byte length of the framed record. -/
def FastqRecord.bytesSize (r : FastqRecord) : Nat := r.bytes.length

/-- `FastqParseError::FastqPairError` as constructed in `paired.rs` line 136
(`fastq_record.rs` is not under `src/`; the fields are those the
construction site supplies, with both positions `None`). -/
structure FastqPairError where
  read1_id : List Nat
  read2_id : List Nat
  read1_pos : Option Nat
  read2_pos : Option Nat
deriving DecidableEq

/-- Ambient configuration of one filter worker of `parse_paired`
(`paired.rs` lines 124-203).  `compress` abstracts `gzip_pack` with the
worker's compressor (libdeflater, out of scope); `grow` abstracts the
capacity a Rust `Vec` adopts when an append must reserve beyond the current
capacity (implementation-defined, hence a parameter of the model). -/
structure PairedConfig where
  id_sets : List (List Nat)
  has_writer1 : Bool
  has_writer2 : Bool
  gzip1 : Bool
  gzip2 : Bool
  compress : List Nat → List Nat
  chunk_bytes : Nat
  grow : Nat → Nat → Nat

/-- Mutable state of one filter worker: the two record pools with their
`Vec` capacities, and the packs sent downstream so far, in order. -/
structure WorkerState where
  pool1 : List Nat
  cap1 : Nat
  pool2 : List Nat
  cap2 : Nat
  sent : List (Option (List Nat) × Option (List Nat))

/-- Worker state at spawn (`paired.rs` lines 128-129):
`Vec::with_capacity(chunk_bytes)` twice, nothing sent. -/
def initState (cfg : PairedConfig) : WorkerState :=
  { pool1 := [], cap1 := cfg.chunk_bytes, pool2 := [], cap2 := cfg.chunk_bytes, sent := [] }

/-- In-loop flush (`paired.rs` lines 142-166): for each side whose writer
exists, swap the pool with a fresh `Vec::with_capacity(chunk_bytes)` and
pack the outgoing bytes (gzip-compressed when that output is gzip); a side
without a writer contributes `None` and its pool is left in place.  The
`(pack1, pack2)` pair is sent downstream. -/
def flushPools (cfg : PairedConfig) (s : WorkerState) : WorkerState :=
  { pool1 := if cfg.has_writer1 then [] else s.pool1,
    cap1 := if cfg.has_writer1 then cfg.chunk_bytes else s.cap1,
    pool2 := if cfg.has_writer2 then [] else s.pool2,
    cap2 := if cfg.has_writer2 then cfg.chunk_bytes else s.cap2,
    sent := s.sent ++
      [(if cfg.has_writer1 then some (if cfg.gzip1 then cfg.compress s.pool1 else s.pool1)
        else none,
        if cfg.has_writer2 then some (if cfg.gzip2 then cfg.compress s.pool2 else s.pool2)
        else none)] }

/-- `record1.extend(&mut records1_pool)` and `record2.extend(&mut
records2_pool)` (`paired.rs` lines 168-169): append the framed bytes of both
mates, growing each `Vec` capacity when the append exceeds it. -/
def appendPools (cfg : PairedConfig) (s : WorkerState) (r1 r2 : FastqRecord) : WorkerState :=
  { pool1 := s.pool1 ++ r1.bytes,
    cap1 := if (s.pool1 ++ r1.bytes).length ≤ s.cap1 then s.cap1
      else cfg.grow s.cap1 (s.pool1 ++ r1.bytes).length,
    pool2 := s.pool2 ++ r2.bytes,
    cap2 := if (s.pool2 ++ r2.bytes).length ≤ s.cap2 then s.cap2
      else cfg.grow s.cap2 (s.pool2 ++ r2.bytes).length,
    sent := s.sent }

/-- The per-record loop of a filter worker over one zipped batch
(`paired.rs` lines 133-170): mate-id mismatch returns the
`FastqPairError` with both observed ids (positions `None`) — packs already
sent stay sent; a selected pair first flushes when either pool's remaining
capacity is too small, then appends both records; an unselected pair is
skipped. -/
def procPairs (cfg : PairedConfig) :
    WorkerState → List (FastqRecord × FastqRecord) → WorkerState × Option FastqPairError
  | s, [] => (s, none)
  | s, (r1, r2) :: rest =>
    if r1.id ≠ r2.id then
      (s, some { read1_id := r1.id, read2_id := r2.id, read1_pos := none, read2_pos := none })
    else if r1.id ∈ cfg.id_sets then
      procPairs cfg
        (appendPools cfg
          (if s.cap1 - s.pool1.length < r1.bytesSize ∨ s.cap2 - s.pool2.length < r2.bytesSize
           then flushPools cfg s else s) r1 r2) rest
    else procPairs cfg s rest

/-- The worker's channel loop (`paired.rs` line 131): paired batches arrive
in order; each is traversed via `zip`; an error ends the worker. -/
def procBatches (cfg : PairedConfig) :
    WorkerState → List (List FastqRecord × List FastqRecord) →
      WorkerState × Option FastqPairError
  | s, [] => (s, none)
  | s, (b1, b2) :: rest =>
    match procPairs cfg s (b1.zip b2) with
    | (s1, none) => procBatches cfg s1 rest
    | (s1, some e) => (s1, some e)

/-- Shutdown flush (`paired.rs` lines 173-199): guarded only by
`records1_pool` being non-empty; when it fires, both sides pack their pool
(gzip-compressed when requested, `None` for an absent writer) and the pair
is sent. -/
def shutdownFlush (cfg : PairedConfig) (s : WorkerState) : WorkerState :=
  if s.pool1 = [] then s
  else
    { s with sent := s.sent ++
        [(if cfg.has_writer1 then some (if cfg.gzip1 then cfg.compress s.pool1 else s.pool1)
          else none,
          if cfg.has_writer2 then some (if cfg.gzip2 then cfg.compress s.pool2 else s.pool2)
          else none)] }

/-- One filter worker of `parse_paired` run to completion (the `threads = 1`
schedule of `paired.rs` lines 124-203): the packs it sent, in order, and its
terminal status.  On error the shutdown flush is skipped (the source
`return Err` leaves the loop). -/
def parse_paired_worker (cfg : PairedConfig)
    (batches : List (List FastqRecord × List FastqRecord)) :
    List (Option (List Nat) × Option (List Nat)) × Option FastqPairError :=
  match procBatches cfg (initState cfg) batches with
  | (s, none) => ((shutdownFlush cfg s).sent, none)
  | (s, some e) => (s.sent, some e)

/-- Bytes reaching output 1: the writer-dispatch stage forwards each present
side-1 pack to Writer1, which appends them in order (`paired.rs` lines
59-118). -/
def writtenBytes1 (packs : List (Option (List Nat) × Option (List Nat))) : List Nat :=
  (packs.filterMap Prod.fst).flatten

/-- Bytes reaching output 2, symmetrically. -/
def writtenBytes2 (packs : List (Option (List Nat) × Option (List Nat))) : List Nat :=
  (packs.filterMap Prod.snd).flatten

/-- Errors of the reader-collect (collator) stage (`paired.rs` lines
208-236). -/
inductive CollateError where
  | closed1Before : CollateError
  | closed2Before : CollateError
  | countMismatch : Nat → Nat → CollateError
deriving DecidableEq

/-- The reader-collect loop of `parse_paired` (`paired.rs` lines 208-236):
receive one batch from each reader channel; closure of exactly one channel
is fatal, a batch pair with unequal record counts is fatal, otherwise the
pair is forwarded in order.  Channel streams are modelled as the lists of
batches the two readers send before closing. -/
def collate : List (List FastqRecord) → List (List FastqRecord) →
    Except CollateError (List (List FastqRecord × List FastqRecord))
  | [], [] => Except.ok []
  | [], _ :: _ => Except.error CollateError.closed1Before
  | _ :: _, [] => Except.error CollateError.closed2Before
  | b1 :: r1, b2 :: r2 =>
    if b1.length ≠ b2.length then
      Except.error (CollateError.countMismatch b1.length b2.length)
    else (collate r1 r2).map (fun rest => (b1, b2) :: rest)

/-- All record pairs a worker sees from a batch list, in order. -/
def allPairs (batches : List (List FastqRecord × List FastqRecord)) :
    List (FastqRecord × FastqRecord) :=
  (batches.map (fun b => b.1.zip b.2)).flatten

/-- The pairs admitted by the selection-set test. -/
def admittedOf (cfg : PairedConfig) (ps : List (FastqRecord × FastqRecord)) :
    List (FastqRecord × FastqRecord) :=
  ps.filter (fun p => decide (p.1.id ∈ cfg.id_sets))

/-- Decomposition of a worker state: the bytes sent so far are the framed
bytes of the pairs `sentPs` (on each side), and the two pools hold the
framed bytes of the pending pairs `pendPs` (on each side). -/
def PoolDecomp (s : WorkerState) (sentPs pendPs : List (FastqRecord × FastqRecord)) : Prop :=
  writtenBytes1 s.sent = (sentPs.map (fun p => p.1.bytes)).flatten ∧
  writtenBytes2 s.sent = (sentPs.map (fun p => p.2.bytes)).flatten ∧
  s.pool1 = (pendPs.map (fun p => p.1.bytes)).flatten ∧
  s.pool2 = (pendPs.map (fun p => p.2.bytes)).flatten

/-- Pairs with byte-equal mate ids whose id lies in the selection set. -/
def GoodPairs (cfg : PairedConfig) (l : List (FastqRecord × FastqRecord)) : Prop :=
  ∀ p ∈ l, (p : FastqRecord × FastqRecord).1.id = p.2.id ∧ p.1.id ∈ cfg.id_sets

/-! ## Concrete inputs used by the witnesses -/

/-- Bytes of the classification line `C<TAB>read1<TAB>562<TAB>150<TAB>A:10 562:20`
(spec section 8, scenario A). -/
def lineA : List Nat :=
  [67, 9, 114, 101, 97, 100, 49, 9, 53, 54, 50, 9, 49, 53, 48, 9,
   65, 58, 49, 48, 32, 53, 54, 50, 58, 50, 48]

/-- The include set containing only the taxid bytes `562`. -/
def incA : List (List Nat) := [[53, 54, 50]]

/-- Bytes of `C<TAB>r1<TAB>562<TAB>150` — a classified line with only three
tabs, so no tab follows its length field. -/
def lineShort : List Nat := [67, 9, 114, 49, 9, 53, 54, 50, 9, 49, 53, 48]

/-- Bytes of `C<TAB>r1<TAB>562<TAB>150 A:10 562:20` — a classified line
whose length field is not followed by a tab (the LCA text follows after a
space instead). -/
def lineNoTab4 : List Nat :=
  [67, 9, 114, 49, 9, 53, 54, 50, 9, 49, 53, 48, 32,
   65, 58, 49, 48, 32, 53, 54, 50, 58, 50, 48]

/-- FASTQ record with id `r1`, sequence `ACGT`, quality `IIII`. -/
def recW1 : FastqRecord := ⟨[114, 49], [65, 67, 71, 84], [73, 73, 73, 73]⟩

/-- FASTQ record with id `r2`. -/
def recW2 : FastqRecord := ⟨[114, 50], [65, 67, 71, 84], [73, 73, 73, 73]⟩

/-- FASTQ record with id `r3`. -/
def recW3 : FastqRecord := ⟨[114, 51], [65, 67, 71, 84], [73, 73, 73, 73]⟩

/-- FASTQ record with id `r5` (spec section 8, scenario D). -/
def recW5 : FastqRecord := ⟨[114, 53], [65], [73]⟩

/-- FASTQ record with id `r6` (spec section 8, scenario D). -/
def recW6 : FastqRecord := ⟨[114, 54], [65], [73]⟩

/-- Concrete worker configuration: selection ids `r1` and `r3`, both
writers present, plain (non-gzip) outputs, 64-byte chunks, doubling
capacity growth. -/
def cfgW : PairedConfig :=
  { id_sets := [[114, 49], [114, 51]], has_writer1 := true, has_writer2 := true,
    gzip1 := false, gzip2 := false, compress := fun x => x, chunk_bytes := 64,
    grow := fun c n => max (2 * c) n }

/-! ## Basic lemmas about the byte-scanning primitives -/

theorem memchr_lt {c : Nat} {l : List Nat} {t : Nat} (h : memchr c l = some t) :
    t < l.length := by
  induction l generalizing t with
  | nil => simp [memchr] at h
  | cons b rest ih =>
    rw [memchr] at h
    by_cases hb : b = c
    · simp [hb] at h
      simp only [List.length_cons]
      omega
    · simp [hb] at h
      obtain ⟨t', ht', rfl⟩ := h
      have := ih ht'
      simp only [List.length_cons]
      omega

theorem memchr_count {c : Nat} {l : List Nat} {t : Nat} (h : memchr c l = some t) :
    l.count c = (l.drop (t + 1)).count c + 1 := by
  induction l generalizing t with
  | nil => simp [memchr] at h
  | cons b rest ih =>
    rw [memchr] at h
    by_cases hb : b = c
    · simp [hb] at h
      subst hb
      simp [← h, List.count_cons]
    · simp [hb] at h
      obtain ⟨t', ht', rfl⟩ := h
      have := ih ht'
      simp [List.count_cons, hb, this]

theorem memchr_take {c : Nat} {l : List Nat} {t : Nat} (h : memchr c l = some t) :
    c ∉ l.take t := by
  induction l generalizing t with
  | nil => simp [memchr] at h
  | cons b rest ih =>
    rw [memchr] at h
    by_cases hb : b = c
    · simp [hb] at h
      simp [← h]
    · simp [hb] at h
      obtain ⟨t', ht', rfl⟩ := h
      simp [List.take_succ_cons]
      exact ⟨fun hc => hb hc.symm, ih ht'⟩

theorem splitTab_of_memchr_none {l : List Nat} (h : memchr 9 l = none) :
    splitTab l = [l] := by
  induction l with
  | nil => rfl
  | cons b rest ih =>
    rw [memchr] at h
    by_cases hb : b = 9
    · simp [hb] at h
    · simp [hb] at h
      rw [splitTab, if_neg hb, ih h]

theorem splitTab_of_memchr_some {l : List Nat} {t : Nat} (h : memchr 9 l = some t) :
    splitTab l = l.take t :: splitTab (l.drop (t + 1)) := by
  induction l generalizing t with
  | nil => simp [memchr] at h
  | cons b rest ih =>
    rw [memchr] at h
    by_cases hb : b = 9
    · simp [hb] at h
      subst hb
      rw [splitTab, if_pos rfl, ← h]
      simp
    · simp [hb] at h
      obtain ⟨t', ht', rfl⟩ := h
      rw [splitTab, if_neg hb, ih ht']
      simp [List.take_succ_cons, List.drop_succ_cons]

theorem eq_singleton_iff {l : List Nat} {a : Nat} :
    l = [a] ↔ l.length = 1 ∧ l.head? = some a := by
  cases l with
  | nil => simp
  | cons b rest =>
    cases rest with
    | nil => simp [eq_comm]
    | cons c rest' => simp

theorem if_mem_eq_some_iff {inc : List (List Nat)} {x tax : List Nat} :
    (if x ∈ inc then some x else none) = some tax ↔ (some x = some tax ∧ tax ∈ inc) := by
  by_cases hx : x ∈ inc
  · simp only [if_pos hx, Option.some_inj]
    constructor
    · intro h
      subst h
      exact ⟨rfl, hx⟩
    · exact fun h => h.1
  · simp only [if_neg hx, Option.some_inj]
    constructor
    · intro h
      cases h
    · intro h
      obtain ⟨h1, h2⟩ := h
      subst h1
      exact absurd h2 hx

theorem taxidOf_eq_some_iff {inc : List (List Nat)} {f tax : List Nat} :
    taxidOf inc f = some tax ↔ (taxidEx f = some tax ∧ tax ∈ inc) := by
  unfold taxidOf taxidEx
  cases hs : findSub taxidTag f with
  | none =>
    simp only [hs]
    exact if_mem_eq_some_iff
  | some s =>
    simp only [hs]
    cases he : memchr taxidClose (f.drop (s + taxidTag.length)) with
    | none => simp only [he, Option.map_none']; simp
    | some e =>
      simp only [he, Option.map_some']
      exact if_mem_eq_some_iff

/-- Central characterization of the per-line parser: a line emits
`(k, (len, tax, lca))` exactly when its first tab-delimited field is the
single byte `C`, its second field is `k`, the taxid extracted from its third
field is `tax` and lies in the include set, its fourth field is `len`, its
fifth field is `lca`, and the exclusion matcher does not match `lca`. -/
theorem parseKoutputLine_eq_some_iff {inc : List (List Nat)} {ex : Option (List (List Nat))}
    {line k len tax lca : List Nat} :
    parseKoutputLine inc ex line = some (k, (len, tax, lca)) ↔
      ((splitTab line)[0]? = some [67] ∧
       (splitTab line)[1]? = some k ∧
       (∃ f2, (splitTab line)[2]? = some f2 ∧ taxidEx f2 = some tax ∧ tax ∈ inc) ∧
       (splitTab line)[3]? = some len ∧
       (splitTab line)[4]? = some lca ∧
       excludeMatches ex lca = false) := by
  unfold parseKoutputLine
  cases h0 : memchr 9 line with
  | none =>
    rw [splitTab_of_memchr_none h0]
    simp
  | some t0 =>
    dsimp only
    rw [splitTab_of_memchr_some h0]
    by_cases hg : (line.take t0).length ≠ 1 ∨ (line.take t0).head? ≠ some 67
    · rw [if_pos hg]
      have hne : line.take t0 ≠ [67] := by
        intro hc
        rw [eq_singleton_iff] at hc
        rcases hg with hg | hg
        · exact hg hc.1
        · exact hg hc.2
      simp [hne]
    · rw [if_neg hg]
      have h67 : line.take t0 = [67] := by
        push_neg at hg
        rw [eq_singleton_iff]
        exact ⟨hg.1, hg.2⟩
      cases h1 : memchr 9 (line.drop (t0 + 1)) with
      | none =>
        rw [splitTab_of_memchr_none h1]
        simp
      | some t1 =>
        dsimp only
        rw [splitTab_of_memchr_some h1]
        cases h2 : memchr 9 ((line.drop (t0 + 1)).drop (t1 + 1)) with
        | none =>
          rw [splitTab_of_memchr_none h2]
          simp
        | some t2 =>
          dsimp only
          rw [splitTab_of_memchr_some h2]
          cases ht : taxidOf inc (((line.drop (t0 + 1)).drop (t1 + 1)).take t2) with
          | none =>
            dsimp only
            constructor
            · intro h
              cases h
            · rintro ⟨-, -, ⟨f2, hf2, htx, hmem⟩, -, -, -⟩
              simp only [List.getElem?_cons_succ, List.getElem?_cons_zero,
                Option.some_inj] at hf2
              subst hf2
              have hsome : taxidOf inc (((line.drop (t0 + 1)).drop (t1 + 1)).take t2) =
                  some tax := taxidOf_eq_some_iff.mpr ⟨htx, hmem⟩
              rw [ht] at hsome
              cases hsome
          | some tax' =>
            dsimp only
            cases h3 : memchr 9 (((line.drop (t0 + 1)).drop (t1 + 1)).drop (t2 + 1)) with
            | none =>
              rw [splitTab_of_memchr_none h3]
              simp
            | some t3 =>
              dsimp only
              rw [splitTab_of_memchr_some h3]
              cases h4 : memchr 9
                  ((((line.drop (t0 + 1)).drop (t1 + 1)).drop (t2 + 1)).drop (t3 + 1)) with
              | none =>
                rw [splitTab_of_memchr_none h4]
                dsimp only
                by_cases hex : excludeMatches ex
                    ((((line.drop (t0 + 1)).drop (t1 + 1)).drop (t2 + 1)).drop (t3 + 1)) = true
                · rw [if_pos hex]
                  constructor
                  · intro h
                    cases h
                  · rintro ⟨-, -, -, -, h5, h6⟩
                    simp only [List.getElem?_cons_succ, List.getElem?_cons_zero,
                      Option.some_inj] at h5
                    rw [← h5, hex] at h6
                    cases h6
                · rw [if_neg hex]
                  constructor
                  · intro h
                    rw [Option.some_inj] at h
                    cases h
                    refine ⟨by simp [h67], by simp, ⟨_, by simp,
                      (taxidOf_eq_some_iff.mp ht).1, (taxidOf_eq_some_iff.mp ht).2⟩,
                      by simp, by simp, ?_⟩
                    simp only [Bool.not_eq_true] at hex
                    exact hex
                  · rintro ⟨-, h2', ⟨f2, hf2, htx, hmem⟩, h4', h5, -⟩
                    simp only [List.getElem?_cons_succ, List.getElem?_cons_zero,
                      Option.some_inj] at h2' hf2 h4' h5
                    subst hf2
                    have hsome : taxidOf inc (((line.drop (t0 + 1)).drop (t1 + 1)).take t2) =
                        some tax := taxidOf_eq_some_iff.mpr ⟨htx, hmem⟩
                    rw [ht] at hsome
                    rw [Option.some_inj] at hsome
                    rw [h2', h4', h5, hsome]
              | some t4 =>
                rw [splitTab_of_memchr_some h4]
                dsimp only
                by_cases hex : excludeMatches ex
                    (((((line.drop (t0 + 1)).drop (t1 + 1)).drop (t2 + 1)).drop
                      (t3 + 1)).take t4) = true
                · rw [if_pos hex]
                  constructor
                  · intro h
                    cases h
                  · rintro ⟨-, -, -, -, h5, h6⟩
                    simp only [List.getElem?_cons_succ, List.getElem?_cons_zero,
                      Option.some_inj] at h5
                    rw [← h5, hex] at h6
                    cases h6
                · rw [if_neg hex]
                  constructor
                  · intro h
                    rw [Option.some_inj] at h
                    cases h
                    refine ⟨by simp [h67], by simp, ⟨_, by simp,
                      (taxidOf_eq_some_iff.mp ht).1, (taxidOf_eq_some_iff.mp ht).2⟩,
                      by simp, by simp, ?_⟩
                    simp only [Bool.not_eq_true] at hex
                    exact hex
                  · rintro ⟨-, h2', ⟨f2, hf2, htx, hmem⟩, h4', h5, -⟩
                    simp only [List.getElem?_cons_succ, List.getElem?_cons_zero,
                      Option.some_inj] at h2' hf2 h4' h5
                    subst hf2
                    have hsome : taxidOf inc (((line.drop (t0 + 1)).drop (t1 + 1)).take t2) =
                        some tax := taxidOf_eq_some_iff.mpr ⟨htx, hmem⟩
                    rw [ht] at hsome
                    rw [Option.some_inj] at hsome
                    rw [h2', h4', h5, hsome]

/-! ## Lemmas on the selection-map construction -/

theorem insertEntry_map_fst {K V : Type} [DecidableEq K] (m : List (K × V)) (k : K) (v : V) :
    (insertEntry m k v).map Prod.fst =
      if k ∈ m.map Prod.fst then m.map Prod.fst else m.map Prod.fst ++ [k] := by
  induction m with
  | nil => simp [insertEntry]
  | cons p rest ih =>
    by_cases hp : p.1 = k
    · simp [insertEntry, hp]
    · have hkp : ¬(k = p.1) := fun hc => hp hc.symm
      simp only [insertEntry, if_neg hp, List.map_cons, ih, List.mem_cons]
      by_cases hk : k ∈ rest.map Prod.fst
      · simp [hk, hkp]
      · simp [hk, hkp]

theorem insertEntry_nodup {K V : Type} [DecidableEq K] {m : List (K × V)} (k : K) (v : V)
    (h : (m.map Prod.fst).Nodup) : ((insertEntry m k v).map Prod.fst).Nodup := by
  rw [insertEntry_map_fst]
  by_cases hk : k ∈ m.map Prod.fst
  · simpa [hk]
  · simp [hk, List.nodup_append, h]

theorem lookupEntry_insertEntry {K V : Type} [DecidableEq K] (m : List (K × V))
    (k k' : K) (v : V) :
    lookupEntry (insertEntry m k v) k' = if k' = k then some v else lookupEntry m k' := by
  induction m with
  | nil =>
    by_cases h : k' = k
    · subst h
      simp [insertEntry, lookupEntry]
    · have h1 : ¬(k = k') := fun hc => h hc.symm
      simp [insertEntry, lookupEntry, h, h1]
  | cons p rest ih =>
    by_cases hp : p.1 = k
    · rw [insertEntry, if_pos hp]
      by_cases h : k' = k
      · subst h
        simp [lookupEntry]
      · have h1 : ¬(k = k') := fun hc => h hc.symm
        have h2 : ¬(p.1 = k') := by rw [hp]; exact h1
        simp [lookupEntry, h, h1, h2]
    · rw [insertEntry, if_neg hp]
      by_cases hq : p.1 = k'
      · have h : ¬(k' = k) := fun hc => hp (hq.trans hc)
        simp [lookupEntry, hq, h]
      · have e1 : lookupEntry (p :: insertEntry rest k v) k' =
            lookupEntry (insertEntry rest k v) k' := by
          simp [lookupEntry, hq]
        have e2 : lookupEntry (p :: rest) k' = lookupEntry rest k' := by
          simp [lookupEntry, hq]
        rw [e1, e2, ih]

theorem lastValue_append_single {K V : Type} [DecidableEq K] (l : List (K × V))
    (k k' : K) (v : V) :
    lastValue (l ++ [(k, v)]) k' = if k' = k then some v else lastValue l k' := by
  by_cases h : k' = k
  · subst h
    simp [lastValue]
  · have h1 : ¬(k = k') := fun hc => h hc.symm
    simp [lastValue, h, h1]

theorem buildMap_append_single {K V : Type} [DecidableEq K] (l : List (K × V)) (p : K × V) :
    buildMap (l ++ [p]) = insertEntry (buildMap l) p.1 p.2 := by
  simp [buildMap, List.foldl_append]

theorem buildMap_keys_nodup {K V : Type} [DecidableEq K] (l : List (K × V)) :
    ((buildMap l).map Prod.fst).Nodup := by
  induction l using List.reverseRecOn with
  | nil => simp [buildMap]
  | append_singleton l p ih =>
    rw [buildMap_append_single]
    exact insertEntry_nodup p.1 p.2 ih

theorem buildMap_lookup {K V : Type} [DecidableEq K] (l : List (K × V)) (k : K) :
    lookupEntry (buildMap l) k = lastValue l k := by
  induction l using List.reverseRecOn with
  | nil => simp [buildMap, lookupEntry, lastValue]
  | append_singleton l p ih =>
    rw [buildMap_append_single, lookupEntry_insertEntry, ih]
    cases p with
    | mk pk pv => rw [lastValue_append_single]

theorem lastValue_eq_some_mem {K V : Type} [DecidableEq K] {l : List (K × V)} {k : K} {v : V}
    (h : lastValue l k = some v) : (k, v) ∈ l := by
  unfold lastValue at h
  cases hf : l.reverse.find? (fun p => decide (p.1 = k)) with
  | none => rw [hf] at h; cases h
  | some p =>
    rw [hf] at h
    have hk : p.1 = k := by
      have := List.find?_some hf
      simpa using this
    have hmem : p ∈ l.reverse := List.mem_of_find?_eq_some hf
    have hv : p.2 = v := by simpa using h
    have : p = (k, v) := by
      cases p
      simp only at hk hv
      rw [hk, hv]
    rw [← this]
    exact List.mem_reverse.mp hmem

/-- An emitted line has at least four tabs: each of the four successful
`memchr` probes consumes one tab of the line. -/
theorem parseKoutputLine_some_count {inc : List (List Nat)} {ex : Option (List (List Nat))}
    {line : List Nat} {v : List Nat × (List Nat × List Nat × List Nat)}
    (h : parseKoutputLine inc ex line = some v) : 4 ≤ line.count 9 := by
  unfold parseKoutputLine at h
  cases h0 : memchr 9 line with
  | none => rw [h0] at h; cases h
  | some t0 =>
    rw [h0] at h
    dsimp only at h
    by_cases hg : (line.take t0).length ≠ 1 ∨ (line.take t0).head? ≠ some 67
    · rw [if_pos hg] at h
      cases h
    · rw [if_neg hg] at h
      cases h1 : memchr 9 (line.drop (t0 + 1)) with
      | none => rw [h1] at h; cases h
      | some t1 =>
        rw [h1] at h
        dsimp only at h
        cases h2 : memchr 9 ((line.drop (t0 + 1)).drop (t1 + 1)) with
        | none => rw [h2] at h; cases h
        | some t2 =>
          rw [h2] at h
          dsimp only at h
          cases ht : taxidOf inc (((line.drop (t0 + 1)).drop (t1 + 1)).take t2) with
          | none => rw [ht] at h; cases h
          | some tax' =>
            rw [ht] at h
            dsimp only at h
            cases h3 : memchr 9 (((line.drop (t0 + 1)).drop (t1 + 1)).drop (t2 + 1)) with
            | none => rw [h3] at h; cases h
            | some t3 =>
              have c0 := memchr_count h0
              have c1 := memchr_count h1
              have c2 := memchr_count h2
              have c3 := memchr_count h3
              omega

/-- Every tab-delimited component produced by `splitTab` is tab-free. -/
theorem splitTab_no_tab : ∀ {l f : List Nat}, f ∈ splitTab l → 9 ∉ f := by
  intro l
  induction l with
  | nil =>
    intro f hf
    simp [splitTab] at hf
    simp [hf]
  | cons b rest ih =>
    intro f hf
    by_cases hb : b = 9
    · rw [splitTab, if_pos hb] at hf
      rcases List.mem_cons.mp hf with hf | hf
      · simp [hf]
      · exact ih hf
    · rw [splitTab, if_neg hb] at hf
      cases hs : splitTab rest with
      | nil =>
        rw [hs] at hf
        rcases List.mem_cons.mp hf with hf | hf
        · intro hc
          rw [hf] at hc
          rcases List.mem_cons.mp hc with hc | hc
          · exact hb hc.symm
          · cases hc
        · cases hf
      | cons f0 fs =>
        rw [hs] at hf
        rcases List.mem_cons.mp hf with hf | hf
        · intro hc
          rw [hf] at hc
          rcases List.mem_cons.mp hc with hc | hc
          · exact hb hc.symm
          · exact ih (hs ▸ List.mem_cons_self f0 fs) hc
        · exact ih (hs ▸ List.mem_cons_of_mem f0 hf)

/-! ## Claims C1, C2, C7, C8, C10: the classification parser -/

/-- Claim C1 (selection soundness): every key of the selection map returned
by `parse_koutput` was produced by some input line whose first tab-delimited
field is exactly the single byte `C`, whose extracted taxid (the
parenthesized `(taxid N)` substring when the marker is present, otherwise
the whole third field) lies in the include set, and whose LCA field is
matched by no pattern of the exclusion matcher when one is supplied. -/
theorem selection_soundness (inc : List (List Nat)) (ex : Option (List (List Nat)))
    (lines : List (List Nat)) (k len tax lca : List Nat)
    (h : lookupEntry (parse_koutput inc ex lines) k = some (len, tax, lca)) :
    ∃ line ∈ lines,
      parseKoutputLine inc ex line = some (k, (len, tax, lca)) ∧
      (splitTab line)[0]? = some [67] ∧
      lineTaxid line = some tax ∧ tax ∈ inc ∧
      (splitTab line)[4]? = some lca ∧
      (∀ pats, ex = some pats → acFindAny pats lca = false) := by
  rw [parse_koutput, buildMap_lookup] at h
  have hmem : (k, (len, tax, lca)) ∈ lines.filterMap (parseKoutputLine inc ex) :=
    lastValue_eq_some_mem h
  rw [List.mem_filterMap] at hmem
  obtain ⟨line, hline, hparse⟩ := hmem
  refine ⟨line, hline, hparse, ?_⟩
  obtain ⟨h1, h2, ⟨f2, hf2, htx, hmemI⟩, h4, h5, h6⟩ := parseKoutputLine_eq_some_iff.mp hparse
  refine ⟨h1, ?_, hmemI, h5, ?_⟩
  · rw [lineTaxid, hf2]
    simpa using htx
  · intro pats hpats
    rw [hpats] at h6
    simpa [excludeMatches] using h6

/-- Witness for claim C1: scenario A of the spec, a single classification
line with taxid `562` in the include set and no exclusion matcher. -/
theorem selection_soundness_witness :
    lookupEntry (parse_koutput incA none [lineA]) [114, 101, 97, 100, 49] =
        some ([49, 53, 48], [53, 54, 50], [65, 58, 49, 48, 32, 53, 54, 50, 58, 50, 48]) ∧
      ∃ line ∈ [lineA],
        parseKoutputLine incA none line =
          some ([114, 101, 97, 100, 49],
            ([49, 53, 48], [53, 54, 50], [65, 58, 49, 48, 32, 53, 54, 50, 58, 50, 48])) ∧
        (splitTab line)[0]? = some [67] ∧
        lineTaxid line = some [53, 54, 50] ∧ [53, 54, 50] ∈ incA ∧
        (splitTab line)[4]? = some [65, 58, 49, 48, 32, 53, 54, 50, 58, 50, 48] ∧
        (∀ pats, (none : Option (List (List Nat))) = some pats →
          acFindAny pats [65, 58, 49, 48, 32, 53, 54, 50, 58, 50, 48] = false) :=
  ⟨by decide, selection_soundness incA none [lineA] _ _ _ _ (by decide)⟩

/-- Claim C2 (selection completeness): every classification line whose first
field is exactly `C`, whose extracted taxid lies in the include set, and
whose LCA field (the fifth tab-delimited field) is not matched by the
exclusion matcher, produces exactly one emitted entry — `parseKoutputLine`
returns `some` tuple carrying the line's read id, length field, taxid and
LCA (an `Option` result makes more than one entry per line impossible). -/
theorem selection_completeness (inc : List (List Nat)) (ex : Option (List (List Nat)))
    (line tax lca : List Nat)
    (hC : (splitTab line)[0]? = some [67])
    (htax : lineTaxid line = some tax) (hmem : tax ∈ inc)
    (hlca : (splitTab line)[4]? = some lca)
    (hex : excludeMatches ex lca = false) :
    ∃ k len, (splitTab line)[1]? = some k ∧ (splitTab line)[3]? = some len ∧
      parseKoutputLine inc ex line = some (k, (len, tax, lca)) := by
  have hlen5 : 4 < (splitTab line).length := by
    by_contra hcon
    push_neg at hcon
    rw [List.getElem?_eq_none hcon] at hlca
    cases hlca
  obtain ⟨f2, hf2⟩ : ∃ f2, (splitTab line)[2]? = some f2 :=
    ⟨(splitTab line).get ⟨2, by omega⟩, List.getElem?_eq_getElem (by omega)⟩
  refine ⟨(splitTab line).get ⟨1, by omega⟩, (splitTab line).get ⟨3, by omega⟩,
    List.getElem?_eq_getElem (by omega), List.getElem?_eq_getElem (by omega), ?_⟩
  rw [parseKoutputLine_eq_some_iff]
  refine ⟨hC, List.getElem?_eq_getElem (by omega), ⟨f2, hf2, ?_, hmem⟩,
    List.getElem?_eq_getElem (by omega), hlca, hex⟩
  rw [lineTaxid, hf2] at htax
  simpa using htax

/-- Witness for claim C2: scenario A's admitted line satisfies the
hypotheses and is emitted. -/
theorem selection_completeness_witness :
    ((splitTab lineA)[0]? = some [67] ∧
      lineTaxid lineA = some [53, 54, 50] ∧ [53, 54, 50] ∈ incA ∧
      (splitTab lineA)[4]? = some [65, 58, 49, 48, 32, 53, 54, 50, 58, 50, 48] ∧
      excludeMatches none [65, 58, 49, 48, 32, 53, 54, 50, 58, 50, 48] = false) ∧
    ∃ k len, (splitTab lineA)[1]? = some k ∧ (splitTab lineA)[3]? = some len ∧
      parseKoutputLine incA none lineA =
        some (k, (len, [53, 54, 50], [65, 58, 49, 48, 32, 53, 54, 50, 58, 50, 48])) :=
  ⟨⟨by decide, by decide, by decide, by decide, by decide⟩,
    selection_completeness incA none lineA _ _
      (by decide) (by decide) (by decide) (by decide) (by decide)⟩

/-- Claim C7 (duplicates, last writer wins): the selection map built by
`parse_koutput` never has a duplicated key, and each key holds the value of
the last tuple emitted for it.  The model is a total function, reflecting
that duplicate read identifiers lead to ordinary map insertion, not a
panic. -/
theorem duplicate_ids_last_writer_wins (inc : List (List Nat))
    (ex : Option (List (List Nat))) (lines : List (List Nat)) :
    ((parse_koutput inc ex lines).map Prod.fst).Nodup ∧
      ∀ k, lookupEntry (parse_koutput inc ex lines) k =
        lastValue (lines.filterMap (parseKoutputLine inc ex)) k :=
  ⟨buildMap_keys_nodup _, fun k => buildMap_lookup _ k⟩

/-- Claim C8 counterexample: the canonical instance of a classification line
whose length field is not followed by a tab (`C<TAB>r1<TAB>562<TAB>150 A:10
562:20`, with `562` included) produces no emitted entry at all, so no
"retained length" exists for it, let alone one extending into the LCA. -/
theorem length_field_no_tab_counterexample :
    parseKoutputLine incA none lineNoTab4 = none := by decide

/-- Claim C8 (amended): a classification line whose length field is not
followed by a tab emits no entry (fewer than four tabs means the line is
discarded), and for every entry `parse_koutput` does emit, the retained
length value is exactly the tab-free fourth tab-delimited field — it never
extends into the LCA string, which is the separate fifth field. -/
theorem length_field_exact (inc : List (List Nat)) (ex : Option (List (List Nat)))
    (line : List Nat) :
    (line.count 9 < 4 → parseKoutputLine inc ex line = none) ∧
    ∀ k len tax lca, parseKoutputLine inc ex line = some (k, (len, tax, lca)) →
      (splitTab line)[3]? = some len ∧ (9 : Nat) ∉ len ∧ (splitTab line)[4]? = some lca := by
  constructor
  · intro hshort
    cases hp : parseKoutputLine inc ex line with
    | none => rfl
    | some v => exact absurd (parseKoutputLine_some_count hp) (by omega)
  · intro k len tax lca h
    obtain ⟨-, -, -, h4, h5, -⟩ := parseKoutputLine_eq_some_iff.mp h
    have hmem : len ∈ splitTab line := by
      rcases List.getElem?_eq_some.mp h4 with ⟨hlt, hv⟩
      exact hv ▸ List.getElem_mem hlt
    exact ⟨h4, splitTab_no_tab hmem, h5⟩

/-- Witness for the amended claim C8: the short line is discarded, and
scenario A's emitted entry retains exactly the fourth field `150`. -/
theorem length_field_exact_witness :
    (lineNoTab4.count 9 < 4 ∧ parseKoutputLine incA none lineNoTab4 = none) ∧
      (parseKoutputLine incA none lineA =
          some ([114, 101, 97, 100, 49],
            ([49, 53, 48], [53, 54, 50], [65, 58, 49, 48, 32, 53, 54, 50, 58, 50, 48])) ∧
        (splitTab lineA)[3]? = some [49, 53, 48] ∧ (9 : Nat) ∉ [49, 53, 48] ∧
        (splitTab lineA)[4]? = some [65, 58, 49, 48, 32, 53, 54, 50, 58, 50, 48]) :=
  ⟨⟨by decide, (length_field_exact incA none lineNoTab4).1 (by decide)⟩,
    ⟨by decide, (length_field_exact incA none lineA).2 [114, 101, 97, 100, 49] [49, 53, 48]
      [53, 54, 50] [65, 58, 49, 48, 32, 53, 54, 50, 58, 50, 48] (by decide)⟩⟩

/-- Claim C10 (short classified lines silently discarded): a line whose
first tab-delimited field is `C` but which contains fewer than four tab
characters produces no entry; the model's total `Option` result reflects
that the source's loop simply falls through with no emission and no
error. -/
theorem short_classified_line_discarded (inc : List (List Nat))
    (ex : Option (List (List Nat))) (line : List Nat)
    (_hC : (splitTab line)[0]? = some [67]) (hshort : line.count 9 < 4) :
    parseKoutputLine inc ex line = none := by
  cases hp : parseKoutputLine inc ex line with
  | none => rfl
  | some v => exact absurd (parseKoutputLine_some_count hp) (by omega)

/-- Witness for claim C10: the three-tab classified line is discarded. -/
theorem short_classified_line_discarded_witness :
    ((splitTab lineShort)[0]? = some [67] ∧ lineShort.count 9 < 4) ∧
      parseKoutputLine incA none lineShort = none :=
  ⟨⟨by decide, by decide⟩,
    short_classified_line_discarded incA none lineShort (by decide) (by decide)⟩

/-! ## Lemmas on the paired filter worker -/

theorem bytes_ne_nil (r : FastqRecord) : r.bytes ≠ [] := by
  simp [FastqRecord.bytes]

/-- The append step leaves both pools non-empty. -/
theorem appendPools_pool_iff (cfg : PairedConfig) (s : WorkerState) (r1 r2 : FastqRecord) :
    ((appendPools cfg s r1 r2).pool1 = [] ↔ (appendPools cfg s r1 r2).pool2 = []) := by
  simp [appendPools, bytes_ne_nil]

/-- Invariant preservation for the per-record loop: outside a single
record-append step, the two pools are empty together. -/
theorem procPairs_pool_iff (cfg : PairedConfig) :
    ∀ (pairs : List (FastqRecord × FastqRecord)) (s : WorkerState),
      (s.pool1 = [] ↔ s.pool2 = []) →
      ((procPairs cfg s pairs).1.pool1 = [] ↔ (procPairs cfg s pairs).1.pool2 = []) := by
  intro pairs
  induction pairs with
  | nil => intro s hs; exact hs
  | cons p rest ih =>
    intro s hs
    obtain ⟨r1, r2⟩ := p
    by_cases hne : r1.id ≠ r2.id
    · simp only [procPairs, if_pos hne]
      exact hs
    · by_cases hmem : r1.id ∈ cfg.id_sets
      · simp only [procPairs, if_neg hne, if_pos hmem]
        exact ih _ (appendPools_pool_iff cfg _ r1 r2)
      · simp only [procPairs, if_neg hne, if_neg hmem]
        exact ih s hs

/-- Invariant preservation across whole batches. -/
theorem procBatches_pool_iff (cfg : PairedConfig) :
    ∀ (batches : List (List FastqRecord × List FastqRecord)) (s : WorkerState),
      (s.pool1 = [] ↔ s.pool2 = []) →
      ((procBatches cfg s batches).1.pool1 = [] ↔ (procBatches cfg s batches).1.pool2 = []) := by
  intro batches
  induction batches with
  | nil => intro s hs; exact hs
  | cons b rest ih =>
    intro s hs
    obtain ⟨b1, b2⟩ := b
    simp only [procBatches]
    cases hp : procPairs cfg s (b1.zip b2) with
    | mk s1 e =>
      have h1 : (s1.pool1 = [] ↔ s1.pool2 = []) := by
        have := procPairs_pool_iff cfg (b1.zip b2) s hs
        rw [hp] at this
        exact this
      cases e with
      | none => exact ih s1 h1
      | some err => exact h1

/-- Claim C9 (pool-emptiness invariant): at every point outside a single
record-append step — after any number of whole batches followed by any
prefix of pairs of the next batch — `records1_pool` is empty if and only if
`records2_pool` is empty; consequently the shutdown flush, guarded only by
`records1_pool` being non-empty, never discards pending data held in
`records2_pool`: whenever the guard skips the flush, `records2_pool` is
empty too. -/
theorem pool_emptiness_invariant (cfg : PairedConfig)
    (batches : List (List FastqRecord × List FastqRecord))
    (pairs : List (FastqRecord × FastqRecord)) :
    ((procPairs cfg (procBatches cfg (initState cfg) batches).1 pairs).1.pool1 = [] ↔
      (procPairs cfg (procBatches cfg (initState cfg) batches).1 pairs).1.pool2 = []) ∧
    ((procBatches cfg (initState cfg) batches).1.pool1 = [] →
      shutdownFlush cfg (procBatches cfg (initState cfg) batches).1 =
        (procBatches cfg (initState cfg) batches).1 ∧
      (procBatches cfg (initState cfg) batches).1.pool2 = []) := by
  have hinit : (initState cfg).pool1 = [] ↔ (initState cfg).pool2 = [] := by simp [initState]
  have hb := procBatches_pool_iff cfg batches (initState cfg) hinit
  refine ⟨procPairs_pool_iff cfg pairs _ hb, fun h1 => ⟨?_, hb.mp h1⟩⟩
  simp [shutdownFlush, h1]

/-- Witness for claim C9: at the worker's start (no batches, no pairs) the
invariant holds and the skipped shutdown flush discards nothing. -/
theorem pool_emptiness_invariant_witness :
    ((procPairs cfgW (procBatches cfgW (initState cfgW) []).1 []).1.pool1 = [] ↔
      (procPairs cfgW (procBatches cfgW (initState cfgW) []).1 []).1.pool2 = []) ∧
    (shutdownFlush cfgW (procBatches cfgW (initState cfgW) []).1 =
        (procBatches cfgW (initState cfgW) []).1 ∧
      (procBatches cfgW (initState cfgW) []).1.pool2 = []) :=
  ⟨(pool_emptiness_invariant cfgW [] []).1,
    (pool_emptiness_invariant cfgW [] []).2 rfl⟩

/-! ## Decomposition of the worker's outputs into framed records -/

theorem writtenBytes1_append_pack (packs : List (Option (List Nat) × Option (List Nat)))
    (a b : List Nat) :
    writtenBytes1 (packs ++ [(some a, some b)]) = writtenBytes1 packs ++ a := by
  simp [writtenBytes1]

theorem writtenBytes2_append_pack (packs : List (Option (List Nat) × Option (List Nat)))
    (a b : List Nat) :
    writtenBytes2 (packs ++ [(some a, some b)]) = writtenBytes2 packs ++ b := by
  simp [writtenBytes2]

/-- With both writers present and plain outputs, the in-loop flush sends
the raw pools and empties both. -/
theorem flushPools_spec (cfg : PairedConfig) (s : WorkerState)
    (hw1 : cfg.has_writer1 = true) (hw2 : cfg.has_writer2 = true)
    (hg1 : cfg.gzip1 = false) (hg2 : cfg.gzip2 = false) :
    (flushPools cfg s).sent = s.sent ++ [(some s.pool1, some s.pool2)] ∧
    (flushPools cfg s).pool1 = [] ∧ (flushPools cfg s).pool2 = [] := by
  refine ⟨?_, ?_, ?_⟩ <;> simp [flushPools, hw1, hw2, hg1, hg2]

/-- Master decomposition for the per-record loop: the bytes sent plus the
pool contents always form the framed bytes of a list of admitted,
id-matched pairs, and in an error-free run that list is exactly the old one
extended by the admitted pairs of the input, in order. -/
theorem procPairs_decomp (cfg : PairedConfig) (hw1 : cfg.has_writer1 = true)
    (hw2 : cfg.has_writer2 = true) (hg1 : cfg.gzip1 = false) (hg2 : cfg.gzip2 = false) :
    ∀ (pairs : List (FastqRecord × FastqRecord)) (s : WorkerState)
      (sentPs pendPs : List (FastqRecord × FastqRecord)),
      PoolDecomp s sentPs pendPs →
      GoodPairs cfg (sentPs ++ pendPs) →
      ∃ sentPs' pendPs',
        PoolDecomp (procPairs cfg s pairs).1 sentPs' pendPs' ∧
        GoodPairs cfg (sentPs' ++ pendPs') ∧
        ((procPairs cfg s pairs).2 = none →
          sentPs' ++ pendPs' = (sentPs ++ pendPs) ++ admittedOf cfg pairs) := by
  intro pairs
  induction pairs with
  | nil =>
    intro s sentPs pendPs hD hG
    exact ⟨sentPs, pendPs, hD, hG, fun _ => by simp [admittedOf]⟩
  | cons p rest ih =>
    intro s sentPs pendPs hD hG
    obtain ⟨r1, r2⟩ := p
    by_cases hne : r1.id ≠ r2.id
    · refine ⟨sentPs, pendPs, ?_, hG, ?_⟩
      · simp only [procPairs, if_pos hne]
        exact hD
      · simp only [procPairs, if_pos hne]
        intro hcon
        cases hcon
    · by_cases hmem : r1.id ∈ cfg.id_sets
      · simp only [procPairs, if_neg hne, if_pos hmem]
        by_cases hf : s.cap1 - s.pool1.length < r1.bytesSize ∨
            s.cap2 - s.pool2.length < r2.bytesSize
        · rw [if_pos hf]
          obtain ⟨e1, e2, e3, e4⟩ := hD
          obtain ⟨f1, f2, f3⟩ := flushPools_spec cfg s hw1 hw2 hg1 hg2
          have hD' : PoolDecomp (appendPools cfg (flushPools cfg s) r1 r2)
              (sentPs ++ pendPs) [(r1, r2)] := by
            have hsent : (appendPools cfg (flushPools cfg s) r1 r2).sent =
                s.sent ++ [(some s.pool1, some s.pool2)] := by
              simp [appendPools, f1]
            refine ⟨?_, ?_, ?_, ?_⟩
            · rw [hsent, writtenBytes1_append_pack, e1, e3]
              simp
            · rw [hsent, writtenBytes2_append_pack, e2, e4]
              simp
            · simp [appendPools, f2]
            · simp [appendPools, f3]
          have hG' : GoodPairs cfg ((sentPs ++ pendPs) ++ [(r1, r2)]) := by
            intro q hq
            rcases List.mem_append.mp hq with hq | hq
            · exact hG q hq
            · rw [List.mem_singleton] at hq
              subst hq
              exact ⟨not_not.mp hne, hmem⟩
          obtain ⟨sentF, pendF, hDF, hGF, hEF⟩ :=
            ih (appendPools cfg (flushPools cfg s) r1 r2) (sentPs ++ pendPs) [(r1, r2)] hD' hG'
          refine ⟨sentF, pendF, hDF, hGF, fun hn => ?_⟩
          rw [hEF hn]
          simp [admittedOf, List.filter_cons, hmem]
        · rw [if_neg hf]
          obtain ⟨e1, e2, e3, e4⟩ := hD
          have hD' : PoolDecomp (appendPools cfg s r1 r2) sentPs (pendPs ++ [(r1, r2)]) := by
            refine ⟨?_, ?_, ?_, ?_⟩
            · simpa [appendPools] using e1
            · simpa [appendPools] using e2
            · simp [appendPools, e3]
            · simp [appendPools, e4]
          have hG' : GoodPairs cfg (sentPs ++ (pendPs ++ [(r1, r2)])) := by
            intro q hq
            rcases List.mem_append.mp hq with hq | hq
            · exact hG q (List.mem_append.mpr (Or.inl hq))
            · rcases List.mem_append.mp hq with hq | hq
              · exact hG q (List.mem_append.mpr (Or.inr hq))
              · rw [List.mem_singleton] at hq
                subst hq
                exact ⟨not_not.mp hne, hmem⟩
          obtain ⟨sentF, pendF, hDF, hGF, hEF⟩ :=
            ih (appendPools cfg s r1 r2) sentPs (pendPs ++ [(r1, r2)]) hD' hG'
          refine ⟨sentF, pendF, hDF, hGF, fun hn => ?_⟩
          rw [hEF hn]
          simp [admittedOf, List.filter_cons, hmem]
      · simp only [procPairs, if_neg hne, if_neg hmem]
        obtain ⟨sentF, pendF, hDF, hGF, hEF⟩ := ih s sentPs pendPs hD hG
        refine ⟨sentF, pendF, hDF, hGF, fun hn => ?_⟩
        rw [hEF hn]
        simp [admittedOf, List.filter_cons, hmem]

/-- Master decomposition lifted to the worker's whole batch loop. -/
theorem procBatches_decomp (cfg : PairedConfig) (hw1 : cfg.has_writer1 = true)
    (hw2 : cfg.has_writer2 = true) (hg1 : cfg.gzip1 = false) (hg2 : cfg.gzip2 = false) :
    ∀ (batches : List (List FastqRecord × List FastqRecord)) (s : WorkerState)
      (sentPs pendPs : List (FastqRecord × FastqRecord)),
      PoolDecomp s sentPs pendPs →
      GoodPairs cfg (sentPs ++ pendPs) →
      ∃ sentPs' pendPs',
        PoolDecomp (procBatches cfg s batches).1 sentPs' pendPs' ∧
        GoodPairs cfg (sentPs' ++ pendPs') ∧
        ((procBatches cfg s batches).2 = none →
          sentPs' ++ pendPs' = (sentPs ++ pendPs) ++ admittedOf cfg (allPairs batches)) := by
  intro batches
  induction batches with
  | nil =>
    intro s sentPs pendPs hD hG
    exact ⟨sentPs, pendPs, hD, hG, fun _ => by simp [admittedOf, allPairs]⟩
  | cons b rest ih =>
    intro s sentPs pendPs hD hG
    obtain ⟨b1, b2⟩ := b
    simp only [procBatches]
    obtain ⟨sent1, pend1, hD1, hG1, hE1⟩ :=
      procPairs_decomp cfg hw1 hw2 hg1 hg2 (b1.zip b2) s sentPs pendPs hD hG
    cases hp : procPairs cfg s (b1.zip b2) with
    | mk s1 e =>
      rw [hp] at hD1 hE1
      cases e with
      | none =>
        obtain ⟨sentF, pendF, hDF, hGF, hEF⟩ := ih s1 sent1 pend1 hD1 hG1
        refine ⟨sentF, pendF, hDF, hGF, fun hn => ?_⟩
        rw [hEF hn, hE1 rfl]
        simp [allPairs, admittedOf, List.filter_append]
      | some err =>
        refine ⟨sent1, pend1, hD1, hG1, fun hn => ?_⟩
        cases hn

/-- Pair-consistent inputs never trip the id check. -/
theorem procPairs_noerr (cfg : PairedConfig) :
    ∀ (pairs : List (FastqRecord × FastqRecord)) (s : WorkerState),
      (∀ p ∈ pairs, (p : FastqRecord × FastqRecord).1.id = p.2.id) →
      (procPairs cfg s pairs).2 = none := by
  intro pairs
  induction pairs with
  | nil => intro s _; rfl
  | cons p rest ih =>
    intro s hp
    obtain ⟨r1, r2⟩ := p
    have heq : r1.id = r2.id := hp (r1, r2) (List.mem_cons_self _ _)
    have hrest : ∀ q ∈ rest, (q : FastqRecord × FastqRecord).1.id = q.2.id :=
      fun q hq => hp q (List.mem_cons_of_mem _ hq)
    simp only [procPairs, if_neg (not_not_intro heq)]
    by_cases hmem : r1.id ∈ cfg.id_sets
    · rw [if_pos hmem]
      exact ih _ hrest
    · rw [if_neg hmem]
      exact ih s hrest

/-- Pair-consistent batches run the whole loop without error. -/
theorem procBatches_noerr (cfg : PairedConfig) :
    ∀ (batches : List (List FastqRecord × List FastqRecord)) (s : WorkerState),
      (∀ b ∈ batches, ∀ p ∈ (b : List FastqRecord × List FastqRecord).1.zip b.2,
        (p : FastqRecord × FastqRecord).1.id = p.2.id) →
      (procBatches cfg s batches).2 = none := by
  intro batches
  induction batches with
  | nil => intro s _; rfl
  | cons b rest ih =>
    intro s hb
    obtain ⟨b1, b2⟩ := b
    simp only [procBatches]
    cases hp : procPairs cfg s (b1.zip b2) with
    | mk s1 e =>
      have he : e = none := by
        have h := procPairs_noerr cfg (b1.zip b2) s (hb (b1, b2) (List.mem_cons_self _ _))
        rw [hp] at h
        exact h
      subst he
      exact ih s1 (fun q hq => hb q (List.mem_cons_of_mem _ hq))

/-- Framed bytes of a pair list vanish only for the empty list. -/
theorem pend_nil_of_flatten_nil {l : List (FastqRecord × FastqRecord)}
    (h : (l.map (fun p => (p : FastqRecord × FastqRecord).1.bytes)).flatten = []) : l = [] := by
  cases l with
  | nil => rfl
  | cons p rest =>
    simp only [List.map_cons, List.flatten_cons, List.append_eq_nil] at h
    exact absurd h.1 (bytes_ne_nil p.1)

/-! ## Claims C3, C4, C5: the filter worker -/

/-- Claim C3 (filter soundness): with both writers present and plain
outputs, the bytes reaching the two outputs are the concatenated framed
records of one list of written pairs, every one of which has byte-equal
mate identifiers belonging to the selection id set; no record with an
unselected id ever appears in an output pack. -/
theorem filter_soundness (cfg : PairedConfig)
    (batches : List (List FastqRecord × List FastqRecord))
    (hw1 : cfg.has_writer1 = true) (hw2 : cfg.has_writer2 = true)
    (hg1 : cfg.gzip1 = false) (hg2 : cfg.gzip2 = false) :
    ∃ written : List (FastqRecord × FastqRecord),
      writtenBytes1 (parse_paired_worker cfg batches).1 =
        (written.map (fun p => (p : FastqRecord × FastqRecord).1.bytes)).flatten ∧
      writtenBytes2 (parse_paired_worker cfg batches).1 =
        (written.map (fun p => (p : FastqRecord × FastqRecord).2.bytes)).flatten ∧
      ∀ p ∈ written,
        (p : FastqRecord × FastqRecord).1.id = p.2.id ∧ p.1.id ∈ cfg.id_sets := by
  have hDinit : PoolDecomp (initState cfg) [] [] := by
    refine ⟨?_, ?_, ?_, ?_⟩ <;> simp [initState, writtenBytes1, writtenBytes2]
  have hGinit : GoodPairs cfg ([] ++ []) := by
    intro q hq
    cases hq
  obtain ⟨sentF, pendF, hDF, hGF, hEF⟩ :=
    procBatches_decomp cfg hw1 hw2 hg1 hg2 batches (initState cfg) [] [] hDinit hGinit
  unfold parse_paired_worker
  cases hp : procBatches cfg (initState cfg) batches with
  | mk s e =>
    rw [hp] at hDF
    obtain ⟨e1, e2, e3, e4⟩ := hDF
    cases e with
    | none =>
      dsimp only
      by_cases hpool : s.pool1 = []
      · have hsf : shutdownFlush cfg s = s := by simp [shutdownFlush, hpool]
        refine ⟨sentF, ?_, ?_, fun p hq => hGF p (List.mem_append.mpr (Or.inl hq))⟩
        · rw [hsf]
          exact e1
        · rw [hsf]
          exact e2
      · have hsf : (shutdownFlush cfg s).sent =
            s.sent ++ [(some s.pool1, some s.pool2)] := by
          simp [shutdownFlush, hpool, hw1, hw2, hg1, hg2]
        refine ⟨sentF ++ pendF, ?_, ?_, hGF⟩
        · rw [hsf, writtenBytes1_append_pack, e1, e3]
          simp
        · rw [hsf, writtenBytes2_append_pack, e2, e4]
          simp
    | some err =>
      dsimp only
      exact ⟨sentF, e1, e2, fun p hq => hGF p (List.mem_append.mpr (Or.inl hq))⟩

/-- Witness for claim C3: scenario C, records `r1, r2, r3` with selection
`r1, r3`, in one batch. -/
theorem filter_soundness_witness :
    (cfgW.has_writer1 = true ∧ cfgW.has_writer2 = true ∧
      cfgW.gzip1 = false ∧ cfgW.gzip2 = false) ∧
    ∃ written : List (FastqRecord × FastqRecord),
      writtenBytes1 (parse_paired_worker cfgW [([recW1, recW2, recW3], [recW1, recW2, recW3])]).1 =
        (written.map (fun p => (p : FastqRecord × FastqRecord).1.bytes)).flatten ∧
      writtenBytes2 (parse_paired_worker cfgW [([recW1, recW2, recW3], [recW1, recW2, recW3])]).1 =
        (written.map (fun p => (p : FastqRecord × FastqRecord).2.bytes)).flatten ∧
      ∀ p ∈ written,
        (p : FastqRecord × FastqRecord).1.id = p.2.id ∧ p.1.id ∈ cfgW.id_sets :=
  ⟨⟨rfl, rfl, rfl, rfl⟩,
    filter_soundness cfgW [([recW1, recW2, recW3], [recW1, recW2, recW3])] rfl rfl rfl rfl⟩

/-- Per-batch mate-1 projection of the admitted pairs. -/
theorem admitted_zip_map_fst (S : List (List Nat)) :
    ∀ (b1 b2 : List FastqRecord), b1.length = b2.length →
      ((b1.zip b2).filter
          (fun p => decide ((p : FastqRecord × FastqRecord).1.id ∈ S))).map Prod.fst =
        b1.filter (fun r => decide (r.id ∈ S)) := by
  intro b1
  induction b1 with
  | nil =>
    intro b2 h
    simp
  | cons r1 rest1 ih =>
    intro b2 h
    cases b2 with
    | nil => simp at h
    | cons r2 rest2 =>
      have hlen : rest1.length = rest2.length := by simpa using h
      by_cases hm : r1.id ∈ S
      · simp [List.filter_cons, hm, ih rest2 hlen]
      · simp [List.filter_cons, hm, ih rest2 hlen]

/-- Per-batch mate-2 projection of the admitted pairs, for pair-consistent
batches. -/
theorem admitted_zip_map_snd (S : List (List Nat)) :
    ∀ (b1 b2 : List FastqRecord), b1.length = b2.length →
      (∀ p ∈ b1.zip b2, (p : FastqRecord × FastqRecord).1.id = p.2.id) →
      ((b1.zip b2).filter
          (fun p => decide ((p : FastqRecord × FastqRecord).1.id ∈ S))).map Prod.snd =
        b2.filter (fun r => decide (r.id ∈ S)) := by
  intro b1
  induction b1 with
  | nil =>
    intro b2 h _
    cases b2 with
    | nil => simp
    | cons r2 rest2 => simp at h
  | cons r1 rest1 ih =>
    intro b2 h hpair
    cases b2 with
    | nil => simp at h
    | cons r2 rest2 =>
      have hlen : rest1.length = rest2.length := by simpa using h
      have heq : r1.id = r2.id := hpair (r1, r2) (by simp)
      have hrest : ∀ p ∈ rest1.zip rest2, (p : FastqRecord × FastqRecord).1.id = p.2.id :=
        fun p hp => hpair p (by simp [hp])
      by_cases hm : r1.id ∈ S
      · have hm2 : r2.id ∈ S := by rw [← heq]; exact hm
        simp [List.filter_cons, hm, hm2, ih rest2 hlen hrest]
      · have hm2 : r2.id ∉ S := fun hc => hm (by rw [heq]; exact hc)
        simp [List.filter_cons, hm, hm2, ih rest2 hlen hrest]

/-- Mate-1 records of all admitted pairs are the selected mate-1 input
records, in order. -/
theorem admitted_allPairs_fst (cfg : PairedConfig) :
    ∀ (batches : List (List FastqRecord × List FastqRecord)),
      (∀ b ∈ batches, (b : List FastqRecord × List FastqRecord).1.length = b.2.length) →
      (admittedOf cfg (allPairs batches)).map Prod.fst =
        ((batches.map Prod.fst).flatten).filter (fun r => decide (r.id ∈ cfg.id_sets)) := by
  intro batches
  induction batches with
  | nil =>
    intro _
    simp [admittedOf, allPairs]
  | cons b rest ih =>
    intro hlen
    obtain ⟨b1, b2⟩ := b
    have h1 := admitted_zip_map_fst cfg.id_sets b1 b2 (hlen (b1, b2) (List.mem_cons_self _ _))
    have h2 := ih (fun q hq => hlen q (List.mem_cons_of_mem _ hq))
    simp only [allPairs, admittedOf, List.map_cons, List.flatten_cons, List.filter_append,
      List.map_append] at h1 h2 ⊢
    rw [h1, h2]

/-- Mate-2 records of all admitted pairs are the selected mate-2 input
records, in order, for pair-consistent batches. -/
theorem admitted_allPairs_snd (cfg : PairedConfig) :
    ∀ (batches : List (List FastqRecord × List FastqRecord)),
      (∀ b ∈ batches, (b : List FastqRecord × List FastqRecord).1.length = b.2.length) →
      (∀ b ∈ batches, ∀ p ∈ (b : List FastqRecord × List FastqRecord).1.zip b.2,
        (p : FastqRecord × FastqRecord).1.id = p.2.id) →
      (admittedOf cfg (allPairs batches)).map Prod.snd =
        ((batches.map Prod.snd).flatten).filter (fun r => decide (r.id ∈ cfg.id_sets)) := by
  intro batches
  induction batches with
  | nil =>
    intro _ _
    simp [admittedOf, allPairs]
  | cons b rest ih =>
    intro hlen hpair
    obtain ⟨b1, b2⟩ := b
    have h1 := admitted_zip_map_snd cfg.id_sets b1 b2 (hlen (b1, b2) (List.mem_cons_self _ _))
      (hpair (b1, b2) (List.mem_cons_self _ _))
    have h2 := ih (fun q hq => hlen q (List.mem_cons_of_mem _ hq))
      (fun q hq => hpair q (List.mem_cons_of_mem _ hq))
    simp only [allPairs, admittedOf, List.map_cons, List.flatten_cons, List.filter_append,
      List.map_append] at h1 h2 ⊢
    rw [h1, h2]

/-- Claim C4 (filter completeness per worker): on well-formed, equal-length,
pair-consistent inputs, a single filter worker with both writers present and
plain outputs finishes without error, and for each mate the concatenation of
all packs written to that output equals the framed bytes of the input record
sequence restricted to records whose id is in the selection set, in input
order. -/
theorem filter_completeness_per_worker (cfg : PairedConfig)
    (batches : List (List FastqRecord × List FastqRecord))
    (hw1 : cfg.has_writer1 = true) (hw2 : cfg.has_writer2 = true)
    (hg1 : cfg.gzip1 = false) (hg2 : cfg.gzip2 = false)
    (hlen : ∀ b ∈ batches, (b : List FastqRecord × List FastqRecord).1.length = b.2.length)
    (hpair : ∀ b ∈ batches, ∀ p ∈ (b : List FastqRecord × List FastqRecord).1.zip b.2,
      (p : FastqRecord × FastqRecord).1.id = p.2.id) :
    (parse_paired_worker cfg batches).2 = none ∧
    writtenBytes1 (parse_paired_worker cfg batches).1 =
      ((((batches.map Prod.fst).flatten).filter
        (fun r => decide (r.id ∈ cfg.id_sets))).map FastqRecord.bytes).flatten ∧
    writtenBytes2 (parse_paired_worker cfg batches).1 =
      ((((batches.map Prod.snd).flatten).filter
        (fun r => decide (r.id ∈ cfg.id_sets))).map FastqRecord.bytes).flatten := by
  have hDinit : PoolDecomp (initState cfg) [] [] := by
    refine ⟨?_, ?_, ?_, ?_⟩ <;> simp [initState, writtenBytes1, writtenBytes2]
  have hGinit : GoodPairs cfg ([] ++ []) := by
    intro q hq
    cases hq
  obtain ⟨sentF, pendF, hDF, hGF, hEF⟩ :=
    procBatches_decomp cfg hw1 hw2 hg1 hg2 batches (initState cfg) [] [] hDinit hGinit
  have hnoerr := procBatches_noerr cfg batches (initState cfg) hpair
  unfold parse_paired_worker
  cases hp : procBatches cfg (initState cfg) batches with
  | mk s e =>
    rw [hp] at hDF hEF hnoerr
    obtain ⟨e1, e2, e3, e4⟩ := hDF
    have he : e = none := hnoerr
    subst he
    dsimp only
    have hexact : sentF ++ pendF = admittedOf cfg (allPairs batches) := by
      have := hEF rfl
      simpa using this
    have hbytes1 : writtenBytes1 (shutdownFlush cfg s).sent =
        ((sentF ++ pendF).map (fun p => (p : FastqRecord × FastqRecord).1.bytes)).flatten := by
      by_cases hpool : s.pool1 = []
      · have hpend : pendF = [] := by
          apply pend_nil_of_flatten_nil
          rw [← e3, hpool]
        have hsf : shutdownFlush cfg s = s := by simp [shutdownFlush, hpool]
        rw [hsf, e1, hpend]
        simp
      · have hsf : (shutdownFlush cfg s).sent =
            s.sent ++ [(some s.pool1, some s.pool2)] := by
          simp [shutdownFlush, hpool, hw1, hw2, hg1, hg2]
        rw [hsf, writtenBytes1_append_pack, e1, e3]
        simp
    have hbytes2 : writtenBytes2 (shutdownFlush cfg s).sent =
        ((sentF ++ pendF).map (fun p => (p : FastqRecord × FastqRecord).2.bytes)).flatten := by
      by_cases hpool : s.pool1 = []
      · have hpend : pendF = [] := by
          apply pend_nil_of_flatten_nil
          rw [← e3, hpool]
        have hsf : shutdownFlush cfg s = s := by simp [shutdownFlush, hpool]
        rw [hsf, e2, hpend]
        simp
      · have hsf : (shutdownFlush cfg s).sent =
            s.sent ++ [(some s.pool1, some s.pool2)] := by
          simp [shutdownFlush, hpool, hw1, hw2, hg1, hg2]
        rw [hsf, writtenBytes2_append_pack, e2, e4]
        simp
    refine ⟨rfl, ?_, ?_⟩
    · rw [hbytes1, hexact, ← admitted_allPairs_fst cfg batches hlen]
      simp [List.map_map]
      rfl
    · rw [hbytes2, hexact, ← admitted_allPairs_snd cfg batches hlen hpair]
      simp [List.map_map]
      rfl

/-- Witness for claim C4: scenario C yields exactly the framed `r1` and
`r3` records on each output, in order. -/
theorem filter_completeness_per_worker_witness :
    ((∀ b ∈ [([recW1, recW2, recW3], [recW1, recW2, recW3])],
        (b : List FastqRecord × List FastqRecord).1.length = b.2.length) ∧
      (∀ b ∈ [([recW1, recW2, recW3], [recW1, recW2, recW3])],
        ∀ p ∈ (b : List FastqRecord × List FastqRecord).1.zip b.2,
          (p : FastqRecord × FastqRecord).1.id = p.2.id)) ∧
    ((parse_paired_worker cfgW [([recW1, recW2, recW3], [recW1, recW2, recW3])]).2 = none ∧
    writtenBytes1 (parse_paired_worker cfgW [([recW1, recW2, recW3], [recW1, recW2, recW3])]).1 =
      (((([([recW1, recW2, recW3], [recW1, recW2, recW3])].map Prod.fst).flatten).filter
        (fun r => decide (r.id ∈ cfgW.id_sets))).map FastqRecord.bytes).flatten ∧
    writtenBytes2 (parse_paired_worker cfgW [([recW1, recW2, recW3], [recW1, recW2, recW3])]).1 =
      (((([([recW1, recW2, recW3], [recW1, recW2, recW3])].map Prod.snd).flatten).filter
        (fun r => decide (r.id ∈ cfgW.id_sets))).map FastqRecord.bytes).flatten) :=
  ⟨⟨by decide, by decide⟩,
    filter_completeness_per_worker cfgW [([recW1, recW2, recW3], [recW1, recW2, recW3])]
      rfl rfl rfl rfl (by decide) (by decide)⟩

/-- On a mate-id mismatch the per-record loop stops at once: the state is
the one reached after the consistent prefix, and the error carries both
observed identifiers with absent positions. -/
theorem procPairs_mismatch (cfg : PairedConfig) :
    ∀ (pre : List (FastqRecord × FastqRecord)) (s : WorkerState)
      (r1 r2 : FastqRecord) (post : List (FastqRecord × FastqRecord)),
      (∀ p ∈ pre, (p : FastqRecord × FastqRecord).1.id = p.2.id) →
      r1.id ≠ r2.id →
      procPairs cfg s (pre ++ (r1, r2) :: post) =
        ((procPairs cfg s pre).1,
          some { read1_id := r1.id, read2_id := r2.id,
                 read1_pos := none, read2_pos := none }) := by
  intro pre
  induction pre with
  | nil =>
    intro s r1 r2 post _ hne
    simp [procPairs, hne]
  | cons q pre' ih =>
    intro s r1 r2 post hpre hne
    obtain ⟨q1, q2⟩ := q
    have heq : q1.id = q2.id := hpre (q1, q2) (List.mem_cons_self _ _)
    have hpre' : ∀ p ∈ pre', (p : FastqRecord × FastqRecord).1.id = p.2.id :=
      fun p hp => hpre p (List.mem_cons_of_mem _ hp)
    simp only [List.cons_append, procPairs, if_neg (not_not_intro heq)]
    by_cases hmem : q1.id ∈ cfg.id_sets
    · simp only [if_pos hmem]
      exact ih _ r1 r2 post hpre' hne
    · simp only [if_neg hmem]
      exact ih s r1 r2 post hpre' hne

/-- Claim C5 (pair-id mismatch fatal): if the zipped batch splits into a
pair-consistent prefix followed by a pair with differing mate ids, the
worker returns the `FastqPairError` carrying both observed identifiers, the
packs sent are exactly those of the prefix, and nothing after the mismatch
is ever written (the shutdown flush is skipped). -/
theorem pair_mismatch_fatal (cfg : PairedConfig) (b1 b2 : List FastqRecord)
    (pre post : List (FastqRecord × FastqRecord)) (r1 r2 : FastqRecord)
    (hsplit : b1.zip b2 = pre ++ (r1, r2) :: post)
    (hpre : ∀ p ∈ pre, (p : FastqRecord × FastqRecord).1.id = p.2.id)
    (hne : r1.id ≠ r2.id) :
    parse_paired_worker cfg [(b1, b2)] =
      ((procPairs cfg (initState cfg) pre).1.sent,
        some { read1_id := r1.id, read2_id := r2.id,
               read1_pos := none, read2_pos := none }) := by
  unfold parse_paired_worker
  simp only [procBatches]
  rw [hsplit, procPairs_mismatch cfg pre (initState cfg) r1 r2 post hpre hne]

/-- Witness for claim C5: scenario D, ids `r5` and `r6` at the same
position. -/
theorem pair_mismatch_fatal_witness :
    ([recW5].zip [recW6] = [] ++ (recW5, recW6) :: [] ∧ recW5.id ≠ recW6.id) ∧
      parse_paired_worker cfgW [([recW5], [recW6])] =
        ((procPairs cfgW (initState cfgW) []).1.sent,
          some { read1_id := recW5.id, read2_id := recW6.id,
                 read1_pos := none, read2_pos := none }) :=
  ⟨⟨by decide, by decide⟩,
    pair_mismatch_fatal cfgW [recW5] [recW6] [] [] recW5 recW6 (by decide)
      (fun p hp => absurd hp (List.not_mem_nil p)) (by decide)⟩

/-! ## Claim C6: the collator -/

/-- Claim C6 (collator pairing errors are fatal): whenever the two reader
streams carry different total record counts — in particular 100 records
against 99 — the collator stage ends in an error (one channel closing
before the other, or a record-count mismatch on a batch pair) instead of
forwarding all batches. -/
theorem collator_mismatch_fatal (bs1 bs2 : List (List FastqRecord))
    (h : (bs1.map List.length).sum ≠ (bs2.map List.length).sum) :
    ∃ e, collate bs1 bs2 = Except.error e := by
  induction bs1 generalizing bs2 with
  | nil =>
    cases bs2 with
    | nil => simp at h
    | cons b r => exact ⟨CollateError.closed1Before, rfl⟩
  | cons b1 r1 ih =>
    cases bs2 with
    | nil => exact ⟨CollateError.closed2Before, rfl⟩
    | cons b2 r2 =>
      by_cases hl : b1.length = b2.length
      · have h' : (r1.map List.length).sum ≠ (r2.map List.length).sum := by
          simp only [List.map_cons, List.sum_cons, hl] at h
          intro hc
          exact h (by rw [hc])
        obtain ⟨e, he⟩ := ih r2 h'
        refine ⟨e, ?_⟩
        simp [collate, hl, he, Except.map]
      · exact ⟨CollateError.countMismatch b1.length b2.length, by simp [collate, hl]⟩

/-- Witness for claim C6: scenario F, one batch of 100 records against one
batch of 99. -/
theorem collator_mismatch_fatal_witness :
    (([List.replicate 100 recW1].map List.length).sum ≠
        ([List.replicate 99 recW1].map List.length).sum) ∧
      ∃ e, collate [List.replicate 100 recW1] [List.replicate 99 recW1] = Except.error e :=
  ⟨by simp, collator_mismatch_fatal [List.replicate 100 recW1] [List.replicate 99 recW1]
    (by simp)⟩

end Scmire
